import Mathlib

/-!
Verification development for the cesiumlang.org build and content pipeline.

The definitions below are a shallow embedding of:
  * `build.js` — gitignore-based path matcher construction
    (`createGitignoreFilter`), the recursive workspace mirror
    (`copyDirectory`, `mirrorWorkspace`), the debounced file watcher
    (`setupWatcher`), and the fatal build orchestration (`main`,
    `installDependencies`, `runQuartzBuild`);
  * the custom folder-page emitter — sibling comparator
    (`bySortOrderAndAlphabetical`), folder computation
    (`_getFolders`, `computeFolderInfo`), full and incremental emission
    (`emit`, the incremental emit), and synthetic folder dates
    (`getMostRecentDates`);
  * `src/scripts/custom-explorer.inline.ts` — the explorer comparator
    (`createCustomSortFn`);
  * the `FrontmatterIndex` emitter of `quartz.config.ts`.

Machine integers of JavaScript are modelled as `Int`; JavaScript `Date`
values are modelled by their millisecond timestamps.  External collaborators
(the `ignore` npm package, quartz path utilities, `renderPage`) are modelled
from the specification where noted.
-/

set_option autoImplicit false

namespace Cesium

/-- A workspace-relative path, as its list of `/`-separated segments
(`build.js` works with the slash-joined string form; segments are used here
so that every path operation is kernel-computable). `[]` is the workspace
root. -/
abbrev RelPath := List String

/-- Join a parent relative path and an entry name, mirroring how `build.js`
computes `path.relative('.', srcPath)` with forward slashes. -/
def joinPath (base : RelPath) (name : String) : RelPath :=
  base ++ [name]

/-! ### PathMatcher (the `ignore` npm package, modelled from the spec) -/

/-- One exclusion rule: a glob-style pattern (as its segments), possibly
negated (`!pattern`). -/
structure Rule where
  pattern : RelPath
  negated : Bool
deriving DecidableEq

/-- Modelled from the spec: the `ignore` npm package's pattern match for the
pattern shapes used by `build.js` — a standard ignore-file grammar where a
pattern without an internal `/` matches a path component at any depth, a
leading `**/` matches at any depth, and a pattern with an internal `/` is
anchored at the workspace root. -/
def matchesPattern (pat p : RelPath) : Bool :=
  if pat.headD "" == "**" then pat.tail.isSuffixOf p
  else
    match pat with
    | [c] => p.getLast? == some c
    | _ => p == pat

/-- Modelled from the spec: "last matching rule wins" — the verdict of the
last rule matching `q`, `some true` meaning excluded and `some false`
meaning re-included by a negated rule. -/
def lastVerdict (rules : List Rule) (q : RelPath) : Option Bool :=
  ((rules.filter (fun r => matchesPattern r.pattern q)).getLast?).map (fun r => !r.negated)

/-- The path itself together with every proper ancestor path. -/
def selfAndAncestors (p : RelPath) : List RelPath :=
  (List.range p.length).map (fun k => p.take (k + 1))

/-- Modelled from the spec: ignore-file semantics — a path is excluded when
the last matching rule for it, or for any of its ancestor directories, is a
non-negated rule (a file inside an excluded directory cannot be
re-included). -/
def ignores (rules : List Rule) (p : RelPath) : Bool :=
  (selfAndAncestors p).any (fun q => lastVerdict rules q == some true)

/-- The static exclusions `build.js` adds first: the build output directory,
the quartz checkout symlink, version-control directories, and the build
script itself. -/
def staticRules : List Rule :=
  [⟨["build"], false⟩, ⟨["src", "quartz"], false⟩, ⟨[".git"], false⟩,
   ⟨["**", ".git"], false⟩, ⟨["build.js"], false⟩]

/-- Embeds `createGitignoreFilter` of `build.js`: the static rules are added
first, then the project `.gitignore` rules (when the ignore file was
readable — `none` models an unreadable ignore file, in which case only the
static rules remain). -/
def createGitignoreFilter (gitignoreContent : Option (List Rule)) : List Rule :=
  staticRules ++ gitignoreContent.getD []

/-! ### WorkspaceMirror (`copyDirectory`, `copyFile`, `mirrorWorkspace`) -/

/-- A source filesystem tree entry: a file with contents, or a directory
with children. -/
inductive FsEntry where
  | file (name : String) (content : String)
  | dir (name : String) (children : List FsEntry)

/-- Name of a filesystem entry. -/
def FsEntry.name : FsEntry → String
  | .file n _ => n
  | .dir n _ => n

/-- Embeds the recursive walk of `copyDirectory` in `build.js`: each entry's
path relative to the workspace root is checked against the ignore filter
before the entry is copied or recursed into; a file whose copy fails
(`failing` models `copyFile`'s caught errors) is skipped with a warning and
the loop continues. -/
def copyDirectory (ig : RelPath → Bool) (failing : List RelPath) :
    RelPath → List FsEntry → List FsEntry
  | _, [] => []
  | base, e :: es =>
    let p := joinPath base e.name
    if ig p then copyDirectory ig failing base es
    else
      match e with
      | .file n c =>
        if p ∈ failing then copyDirectory ig failing base es
        else .file n c :: copyDirectory ig failing base es
      | .dir n cs => .dir n (copyDirectory ig failing p cs) :: copyDirectory ig failing base es
termination_by _ es => sizeOf es

/-- Every path (of a file or of a directory, at any depth) present in a tree,
relative to the workspace root. -/
def entryPaths (base : RelPath) : List FsEntry → List RelPath
  | [] => []
  | .file n _ :: es => joinPath base n :: entryPaths base es
  | .dir n cs :: es =>
    joinPath base n :: (entryPaths (joinPath base n) cs ++ entryPaths base es)
termination_by es => sizeOf es

/-- Result of a full mirror pass: whether the `.git` reference link was
created, and the copied tree under the build root. -/
structure MirrorResult where
  gitLinkCreated : Bool
  tree : List FsEntry

/-- Embeds `mirrorWorkspace` of `build.js`: clears the build root, attempts
the `.git` reference link (best-effort, `gitLinkOk` models whether the
platform call succeeded), compiles the gitignore filter and copies the
workspace into the build root under that filter. -/
def mirrorWorkspace (source : List FsEntry) (gitignoreContent : Option (List Rule))
    (failing : List RelPath) (gitLinkOk : Bool) : MirrorResult :=
  let ig := createGitignoreFilter gitignoreContent
  ⟨gitLinkOk, copyDirectory (fun p => ignores ig p) failing [] source⟩

/-- All paths present under the build root after a mirror pass: the
version-control reference link (when created) plus every copied path. -/
def buildRootPaths (r : MirrorResult) : List RelPath :=
  (if r.gitLinkCreated then [[".git"]] else []) ++ entryPaths [] r.tree

/-- Unfolding equation: copying an empty directory listing. -/
theorem copyDirectory_nil (ig : RelPath → Bool) (failing : List RelPath) (base : RelPath) :
    copyDirectory ig failing base [] = [] := by
  rw [copyDirectory.eq_def]

/-- Unfolding equation: an entry excluded by the filter is skipped. -/
theorem copyDirectory_cons_ignored (ig : RelPath → Bool) (failing : List RelPath)
    (base : RelPath) (e : FsEntry) (es : List FsEntry)
    (h : ig (joinPath base e.name) = true) :
    copyDirectory ig failing base (e :: es) = copyDirectory ig failing base es := by
  rw [copyDirectory.eq_def]
  simp [h]

/-- Unfolding equation: a file whose copy fails is skipped, the loop
continues with the remaining entries. -/
theorem copyDirectory_file_fail (ig : RelPath → Bool) (failing : List RelPath)
    (base : RelPath) (n c : String) (es : List FsEntry)
    (h : ig (joinPath base n) = false) (hf : joinPath base n ∈ failing) :
    copyDirectory ig failing base (.file n c :: es) = copyDirectory ig failing base es := by
  rw [copyDirectory.eq_def]
  simp [FsEntry.name, h, hf]

/-- Unfolding equation: a non-excluded file whose copy succeeds is copied. -/
theorem copyDirectory_file_ok (ig : RelPath → Bool) (failing : List RelPath)
    (base : RelPath) (n c : String) (es : List FsEntry)
    (h : ig (joinPath base n) = false) (hf : joinPath base n ∉ failing) :
    copyDirectory ig failing base (.file n c :: es) =
      .file n c :: copyDirectory ig failing base es := by
  rw [copyDirectory.eq_def]
  simp [FsEntry.name, h, hf]

/-- Unfolding equation: a non-excluded directory is recreated and recursed
into. -/
theorem copyDirectory_dir (ig : RelPath → Bool) (failing : List RelPath)
    (base : RelPath) (n : String) (cs es : List FsEntry)
    (h : ig (joinPath base n) = false) :
    copyDirectory ig failing base (.dir n cs :: es) =
      .dir n (copyDirectory ig failing (joinPath base n) cs) ::
        copyDirectory ig failing base es := by
  rw [copyDirectory.eq_def]
  simp [FsEntry.name, h]

/-- Every path emitted by `copyDirectory` was checked against the ignore
filter at its own relative path and passed. -/
theorem copyDirectory_not_ignored (ig : RelPath → Bool) (failing : List RelPath) :
    ∀ (base : RelPath) (es : List FsEntry) (p : RelPath),
      p ∈ entryPaths base (copyDirectory ig failing base es) → ig p = false := by
  intro base es
  induction base, es using copyDirectory.induct ig failing with
  | case1 b =>
    intro p hp
    simp [copyDirectory_nil, entryPaths] at hp
  | case2 b e es q hig ih =>
    intro p hp
    rw [copyDirectory_cons_ignored ig failing b e es hig] at hp
    exact ih p hp
  | case3 b es n c q hig hf ih =>
    intro p hp
    simp only [Bool.not_eq_true] at hig
    rw [copyDirectory_file_fail ig failing b n c es hig hf] at hp
    exact ih p hp
  | case4 b es n c q hig hf ih =>
    intro p hp
    simp only [Bool.not_eq_true] at hig
    rw [copyDirectory_file_ok ig failing b n c es hig hf] at hp
    rw [entryPaths] at hp
    rcases List.mem_cons.mp hp with hp | hp
    · subst hp; simpa [FsEntry.name] using hig
    · exact ih p hp
  | case5 b es n cs q hig ih1 ih2 =>
    intro p hp
    simp only [Bool.not_eq_true] at hig
    rw [copyDirectory_dir ig failing b n cs es hig] at hp
    rw [entryPaths] at hp
    rcases List.mem_cons.mp hp with hp | hp
    · subst hp; simpa [FsEntry.name] using hig
    · rcases List.mem_append.mp hp with hp | hp
      · exact ih1 p hp
      · exact ih2 p hp

/-- Paths of the files (not directories) present in a tree, at any depth. -/
def filePaths (base : RelPath) : List FsEntry → List RelPath
  | [] => []
  | .file n _ :: es => joinPath base n :: filePaths base es
  | .dir n cs :: es => filePaths (joinPath base n) cs ++ filePaths base es
termination_by es => sizeOf es

/-- A file whose copy failed is never present in the copied tree. -/
theorem copyDirectory_skips_failing (ig : RelPath → Bool) (failing : List RelPath) :
    ∀ (base : RelPath) (es : List FsEntry) (p : RelPath),
      p ∈ filePaths base (copyDirectory ig failing base es) → p ∉ failing := by
  intro base es
  induction base, es using copyDirectory.induct ig failing with
  | case1 b =>
    intro p hp
    simp [copyDirectory_nil, filePaths] at hp
  | case2 b e es q hig ih =>
    intro p hp
    rw [copyDirectory_cons_ignored ig failing b e es hig] at hp
    exact ih p hp
  | case3 b es n c q hig hf ih =>
    intro p hp
    simp only [Bool.not_eq_true] at hig
    rw [copyDirectory_file_fail ig failing b n c es hig hf] at hp
    exact ih p hp
  | case4 b es n c q hig hf ih =>
    intro p hp
    simp only [Bool.not_eq_true] at hig
    rw [copyDirectory_file_ok ig failing b n c es hig hf] at hp
    rw [filePaths] at hp
    rcases List.mem_cons.mp hp with hp | hp
    · subst hp; simpa [FsEntry.name] using hf
    · exact ih p hp
  | case5 b es n cs q hig ih1 ih2 =>
    intro p hp
    simp only [Bool.not_eq_true] at hig
    rw [copyDirectory_dir ig failing b n cs es hig] at hp
    rw [filePaths] at hp
    rcases List.mem_append.mp hp with hp | hp
    · exact ih1 p hp
    · exact ih2 p hp

/-- C1 counterexample: the compiled matcher excludes `.git`, yet after a
mirror pass in which the best-effort reference-link creation succeeded, the
path `.git` does exist under the build root — `mirrorWorkspace`
deliberately creates it as the version-control reference link. -/
theorem excluded_git_path_in_build_root :
    ignores (createGitignoreFilter (some [])) [".git"] = true ∧
    [".git"] ∈ buildRootPaths
      (mirrorWorkspace [.dir "content" [.file "a.md" "x"]] (some []) [] true) := by
  refine ⟨by decide, ?_⟩
  simp [buildRootPaths, mirrorWorkspace]

/-- C1 amended: for every relative path other than the version-control
reference link `.git`, exclusion by the compiled matcher implies absence
from the build root after a full mirror pass, at any depth. -/
theorem mirror_exclusion_invariant_except_git_link
    (source : List FsEntry) (gitignoreContent : Option (List Rule))
    (failing : List RelPath) (gitLinkOk : Bool) (p : RelPath)
    (hex : ignores (createGitignoreFilter gitignoreContent) p = true)
    (hne : p ≠ [".git"]) :
    p ∉ buildRootPaths (mirrorWorkspace source gitignoreContent failing gitLinkOk) := by
  intro hp
  simp only [buildRootPaths, mirrorWorkspace, List.mem_append] at hp
  rcases hp with hp | hp
  · rcases gitLinkOk with _ | _
    · simp at hp
    · simp at hp
      exact hne hp
  · have h :=
      copyDirectory_not_ignored
        (fun q => ignores (createGitignoreFilter gitignoreContent) q) failing [] source p hp
    simp only [] at h
    rw [hex] at h
    exact Bool.true_eq_false.mp h

/-- C1 amended, witness: the excluded path `build` from a source tree that
contains a `build` directory is absent from the mirrored build root. -/
theorem mirror_exclusion_invariant_except_git_link_witness :
    ["build"] ∉ buildRootPaths
      (mirrorWorkspace [.dir "build" [], .file "a.md" "x"] (some []) [] true) :=
  mirror_exclusion_invariant_except_git_link _ _ _ _ _ (by decide) (by decide)

/-- C4: `createGitignoreFilter` adds its static safety rules before, not
after, the project `.gitignore` rules, so under last-matching-rule-wins
semantics a user's negated pattern `!build` does re-include the statically
excluded build output directory (the second conjunct shows `build` is
excluded whenever the user rules do not interfere, here with an unreadable
ignore file). -/
theorem user_negated_pattern_reincludes_static_exclusion :
    ignores (createGitignoreFilter (some [⟨["build"], true⟩])) ["build"] = false ∧
    ignores (createGitignoreFilter none) ["build"] = true := by
  decide

/-- C8: best-effort failures never abort a phase — an unreadable ignore
file leaves exactly the static rules; a failed version-control link leaves
the mirrored tree unchanged; a file whose copy failed is absent from the
result; and the copy loop continues past a failed file with the remaining
entries. -/
theorem best_effort_failures_do_not_abort :
    (createGitignoreFilter none = staticRules) ∧
    (∀ (source : List FsEntry) (gi : Option (List Rule)) (failing : List RelPath),
      (mirrorWorkspace source gi failing false).tree =
        (mirrorWorkspace source gi failing true).tree) ∧
    (∀ (ig : RelPath → Bool) (failing : List RelPath) (base : RelPath)
        (es : List FsEntry) (p : RelPath),
      p ∈ filePaths base (copyDirectory ig failing base es) → p ∉ failing) ∧
    (∀ (ig : RelPath → Bool) (failing : List RelPath) (base : RelPath)
        (n c : String) (es : List FsEntry),
      ig (joinPath base n) = false → joinPath base n ∈ failing →
      copyDirectory ig failing base (.file n c :: es) = copyDirectory ig failing base es) := by
  refine ⟨rfl, fun _ _ _ => rfl, fun ig failing => copyDirectory_skips_failing ig failing, ?_⟩
  intro ig failing base n c es h hf
  exact copyDirectory_file_fail ig failing base n c es h hf

/-- C8 witness: a single failing file copy at the workspace root is skipped
and the pass continues (here: finishing the remaining empty listing). -/
theorem best_effort_failures_do_not_abort_witness :
    copyDirectory (fun _ => false) [["a.md"]] [] [.file "a.md" "x"] =
      copyDirectory (fun _ => false) [["a.md"]] [] [] :=
  best_effort_failures_do_not_abort.2.2.2 (fun _ => false) [["a.md"]] [] "a.md" "x" []
    rfl (by simp [joinPath])

/-! ### ChangeWatcher (`setupWatcher` of `build.js`)

The watcher receives the chokidar event stream (already filtered by the
ignore matcher), ignores events until the initial scan completes
(`'ready'`), and debounces: every event observed in the ready state clears
the pending timer and arms a new 500 ms timer whose callback captures that
event's `event` kind and `filePath`.  A burst is modelled as the list of
events delivered inside one debounce window, in order. -/

/-- An observation of the watch session: the end of the initial scan, or a
filesystem event with its chokidar kind (`"add"`, `"change"`, `"unlink"`,
`"addDir"`, ...) and affected path. -/
inductive WatchEvent where
  | ready
  | fs (kind : String) (path : String)
deriving DecidableEq

/-- Watcher state: whether the initial scan has completed, and the
`(event, filePath)` pair captured by the currently armed debounce callback,
if any. -/
structure WatcherState where
  isReady : Bool
  pending : Option (String × String)
deriving DecidableEq

/-- State before any event: initial scan running, no timer armed. -/
def initialWatcherState : WatcherState := ⟨false, none⟩

/-- Embeds the `watcher.on('all', ...)` handler: a `'ready'` event marks the
scan complete; any other event is dropped while not ready, and otherwise
clears the previous timer and re-arms it with a callback capturing this
event's kind and path. -/
def watcherStep (s : WatcherState) (e : WatchEvent) : WatcherState :=
  match e with
  | .ready => ⟨true, s.pending⟩
  | .fs kind path => if s.isReady then ⟨s.isReady, some (kind, path)⟩ else s

/-- Embeds the debounce callback that fires at window expiry: for the
captured `'change'`/`'add'` event it copies that one file, for `'unlink'`
it removes that one file; other kinds synchronize nothing.  Returns the
list of paths the pass synchronizes. -/
def expirySyncPaths (s : WatcherState) : List String :=
  match s.pending with
  | none => []
  | some (kind, path) =>
    if kind == "change" || kind == "add" || kind == "unlink" then [path] else []

/-- Number of synchronization passes that run at window expiry: one when a
timer is armed, zero otherwise. -/
def expirySyncPassCount (s : WatcherState) : Nat :=
  if s.pending.isSome then 1 else 0

/-- Paths synchronized at the expiry of a debounce window in which the
given burst of events was delivered. -/
def debounceBurstSync (events : List WatchEvent) : List String :=
  expirySyncPaths (events.foldl watcherStep initialWatcherState)

/-- Paths of the filesystem events of a burst that are observed in the
ready state (`r` carries whether the scan had already completed). -/
def readyFsPaths : List WatchEvent → Bool → List String
  | [], _ => []
  | .ready :: es, _ => readyFsPaths es true
  | .fs _ p :: es, r => (if r then [p] else []) ++ readyFsPaths es r

/-- Union of distinct elements in first-occurrence order (a JavaScript
`Set` built by insertion). -/
def setOfList {α : Type} [DecidableEq α] (xs : List α) : List α :=
  xs.foldl (fun acc a => if a ∈ acc then acc else acc ++ [a]) []

/-- Membership in the insertion-ordered union is membership in the input. -/
theorem mem_setOfList {α : Type} [DecidableEq α] (xs : List α) (a : α) :
    a ∈ setOfList xs ↔ a ∈ xs := by
  have key : ∀ (ys : List α) (acc : List α),
      a ∈ ys.foldl (fun acc b => if b ∈ acc then acc else acc ++ [b]) acc ↔
        a ∈ acc ∨ a ∈ ys := by
    intro ys
    induction ys with
    | nil => intro acc; simp
    | cons y ys ih =>
      intro acc
      rw [List.foldl_cons]
      by_cases hy : y ∈ acc
      · rw [if_pos hy, ih]
        constructor
        · rintro (h | h)
          · exact Or.inl h
          · exact Or.inr (List.mem_cons_of_mem y h)
        · rintro (h | h)
          · exact Or.inl h
          · rcases List.mem_cons.mp h with rfl | h
            · exact Or.inl hy
            · exact Or.inr h
      · rw [if_neg hy, ih]
        simp only [List.mem_append, List.mem_singleton, List.mem_cons]
        tauto
  exact (key xs []).trans (by simp)

/-- The last filesystem event of a burst observed in the ready state. -/
def lastReadyFs : List WatchEvent → Bool → Option (String × String)
  | [], _ => none
  | .ready :: es, _ => lastReadyFs es true
  | .fs k p :: es, r =>
    match lastReadyFs es r with
    | some x => some x
    | none => if r then some (k, p) else none

/-- C2 counterexample: a burst of two qualifying change events in the ready
state synchronizes only the path of the last event — not the union of the
distinct affected paths of the burst. -/
theorem debounce_burst_drops_earlier_paths :
    debounceBurstSync
        [.ready, .fs "change" "content/a.md", .fs "change" "content/b.md"] =
      ["content/b.md"] ∧
    setOfList (readyFsPaths
        [.ready, .fs "change" "content/a.md", .fs "change" "content/b.md"] false) =
      ["content/a.md", "content/b.md"] ∧
    (["content/b.md"] : List String) ≠ ["content/a.md", "content/b.md"] := by
  refine ⟨rfl, rfl, by decide⟩

/-- Folding the watcher handler over a burst keeps readiness monotone and
leaves pending exactly the last ready-state filesystem event (or the
previously pending one when the burst has none). -/
theorem foldl_watcherStep (events : List WatchEvent) :
    ∀ s : WatcherState,
      events.foldl watcherStep s =
        ⟨s.isReady || events.contains .ready,
          match lastReadyFs events s.isReady with
          | some x => some x
          | none => s.pending⟩ := by
  induction events with
  | nil => intro s; simp [lastReadyFs]
  | cons e es ih =>
    intro s
    cases e with
    | ready =>
      rw [List.foldl_cons, ih]
      simp [watcherStep, lastReadyFs, List.contains_cons]
    | fs k p =>
      rw [List.foldl_cons, ih]
      by_cases hr : s.isReady
      · simp only [watcherStep, hr, if_true, lastReadyFs, List.contains_cons]
        rcases h : lastReadyFs es true with _ | x <;> simp [hr, h]
      · simp only [watcherStep, hr, if_false, lastReadyFs, List.contains_cons]
        simp only [Bool.not_eq_true] at hr
        rcases h : lastReadyFs es false with _ | x <;> simp [hr, h]

/-- C2 amended: at the expiry of a debounce window at most one
synchronization pass runs, and it synchronizes only the affected path of
the last qualifying event of the burst observed in the ready state — not
the union of all distinct affected paths. -/
theorem debounce_syncs_last_ready_event_only (events : List WatchEvent) :
    expirySyncPassCount (events.foldl watcherStep initialWatcherState) ≤ 1 ∧
    debounceBurstSync events =
      (match lastReadyFs events false with
       | none => []
       | some (k, p) =>
         if k == "change" || k == "add" || k == "unlink" then [p] else []) := by
  constructor
  · simp only [expirySyncPassCount]
    split <;> omega
  · rw [debounceBurstSync, foldl_watcherStep events initialWatcherState]
    rcases h : lastReadyFs events false with _ | ⟨k, p⟩ <;>
      simp [expirySyncPaths, initialWatcherState, h]

/-! ### BuildRunner failure handling (`installDependencies`,
`runQuartzBuild`, `main` of `build.js`) -/

/-- Embeds `installDependencies`: resolves when `npm install` exits 0,
rejects with the error message built from the child's exit code
otherwise. -/
def installDependencies (exitCode : Int) : Except String Unit :=
  if exitCode = 0 then .ok ()
  else .error ("npm install failed with code " ++ toString exitCode)

/-- Embeds `runQuartzBuild`: installs dependencies, then runs the quartz
CLI; a non-zero exit of either child rejects with the corresponding error
message. -/
def runQuartzBuild (installExit buildExit : Int) : Except String Unit :=
  match installDependencies installExit with
  | .error m => .error m
  | .ok _ =>
    if buildExit = 0 then .ok ()
    else .error ("Quartz build failed with code " ++ toString buildExit)

/-- Embeds the `try`/`catch` of `main`: a rejected build prints
`Build failed: <message>` and terminates the process with `process.exit(1)`;
a successful run exits 0 with no failure message. Result:
`(process exit code, failure message)`. -/
def mainExit (installExit buildExit : Int) : Nat × Option String :=
  match runQuartzBuild installExit buildExit with
  | .ok _ => (0, none)
  | .error m => (1, some ("Build failed: " ++ m))

/-- C9 counterexample: when `npm install` exits with status 2, the build
process terminates with exit status 1 — the external process's exit status
is not propagated (it only appears inside the printed message). -/
theorem build_failure_exit_status_not_propagated :
    (mainExit 2 0).1 = 1 ∧ (mainExit 2 0).1 ≠ 2 ∧
    (mainExit 2 0).2 = some "Build failed: npm install failed with code 2" := by
  refine ⟨rfl, by decide, ?_⟩
  rfl

/-- C9 amended: a non-zero exit of the dependency install or of the
external render invocation is fatal — the build terminates with exit
status 1 and prints a failure message embedding the child's exit code
(child output itself is streamed through untouched via inherited stdio). -/
theorem downstream_failure_fatal_exit_one :
    (∀ i b : Int, i ≠ 0 →
      mainExit i b =
        (1, some ("Build failed: " ++ ("npm install failed with code " ++ toString i)))) ∧
    (∀ b : Int, b ≠ 0 →
      mainExit 0 b =
        (1, some ("Build failed: " ++ ("Quartz build failed with code " ++ toString b)))) := by
  constructor
  · intro i b hi
    simp [mainExit, runQuartzBuild, installDependencies, hi]
  · intro b hb
    simp [mainExit, runQuartzBuild, installDependencies, hb]

/-- C9 amended, witness: a render invocation exiting 3 terminates the build
with exit status 1 and the corresponding message. -/
theorem downstream_failure_fatal_exit_one_witness :
    mainExit 0 3 =
      (1, some ("Build failed: " ++ ("Quartz build failed with code " ++ toString (3 : Int)))) :=
  downstream_failure_fatal_exit_one.2 3 (by decide)

/-! ### Sibling ordering (`bySortOrderAndAlphabetical` of the folder-page
emitter) -/

/-- The created/modified/published date triple of a content node, each as a
millisecond timestamp (`QuartzPluginData["dates"]` is all-or-nothing per the
data model). -/
structure Dates where
  created : Int
  modified : Int
  published : Int
deriving DecidableEq

/-- The slice of `QuartzPluginData` the emitter reads: the full slug (as
path segments; a trailing empty segment models a trailing slash), the
numeric `sortorder` frontmatter value when present with number type, the
frontmatter title, the optional dates, and the rendered body (opaque here).
A malformed `sortorder` (non-number) fails the emitter's `typeof` test and
is modelled as `none`. -/
structure QuartzPluginData where
  slug : List String
  sortorder : Option Int
  title : Option String
  dates : Option Dates
  body : String
deriving DecidableEq

/-- Modelled from the spec: quartz's `isFolderPath` — a slug names a folder
exactly when it ends with a path separator (here: a trailing empty
segment). -/
def isFolderPath (slug : List String) : Bool :=
  slug.getLast? == some ""

/-- Modelled from the spec and `quartz.config.ts`: quartz's `getDate`
returns the date selected by `defaultDateType`, which this repository
configures as `"modified"`. -/
def getDate (d : QuartzPluginData) : Option Int :=
  d.dates.map (fun ds => ds.modified)

/-- Kernel-computable lexicographic comparison of character lists by code
point (models the sign of JavaScript `localeCompare` on the strings used in
the theorems below). -/
def charListLt : List Char → List Char → Bool
  | [], [] => false
  | [], _ :: _ => true
  | _ :: _, [] => false
  | a :: as, b :: bs =>
    if a.toNat < b.toNat then true
    else if b.toNat < a.toNat then false
    else charListLt as bs

/-- Sign-valued string comparison: negative when `a` precedes `b`. -/
def strCmpInt (a b : String) : Int :=
  if charListLt a.data b.data then -1
  else if charListLt b.data a.data then 1 else 0

/-- Lowercase a string (`.toLowerCase()`), kernel-computably. -/
def lowerString (s : String) : String :=
  ⟨s.data.map Char.toLower⟩

/-- Embeds `bySortOrderAndAlphabetical` of the folder-page emitter: folders
first; then ascending numeric `sortorder`, a node carrying one before a
node without; then (neither carrying one) dated nodes before undated, more
recent first among dated; finally case-insensitive comparison of the
frontmatter titles (absent title compares as `""`). -/
def bySortOrderAndAlphabetical (f1 f2 : QuartzPluginData) : Int :=
  let f1IsFolder := isFolderPath f1.slug
  let f2IsFolder := isFolderPath f2.slug
  if f1IsFolder && !f2IsFolder then -1
  else if !f1IsFolder && f2IsFolder then 1
  else
    match f1.sortorder, f2.sortorder with
    | some a, some b => a - b
    | some _, none => -1
    | none, some _ => 1
    | none, none =>
      match f1.dates, f2.dates with
      | some d1, some d2 => d2.modified - d1.modified
      | some _, none => -1
      | none, some _ => 1
      | none, none =>
        strCmpInt (lowerString (f1.title.getD "")) (lowerString (f2.title.getD ""))

/-- Stable insertion of an element into a list ordered by a JavaScript-style
sign comparator (`cmp a b ≤ 0` places `a` before `b`; ties keep the earlier
element first). -/
def sortInsert {α : Type} (cmp : α → α → Int) (a : α) : List α → List α
  | [] => [a]
  | b :: bs => if cmp a b ≤ 0 then a :: b :: bs else b :: sortInsert cmp a bs

/-- Stable sort by a JavaScript-style sign comparator, modelling
`Array.prototype.sort` (stable per the ECMAScript specification). -/
def jsSort {α : Type} (cmp : α → α → Int) (l : List α) : List α :=
  l.foldr (sortInsert cmp) []

/-- Scenario node `a/x.md` with `sortorder: 2`. -/
def nodeX : QuartzPluginData :=
  ⟨["a", "x"], some 2, some "x", none, "x body"⟩

/-- Scenario node `a/y.md` with `sortorder: 1`. -/
def nodeY : QuartzPluginData :=
  ⟨["a", "y"], some 1, some "y", none, "y body"⟩

/-- Scenario node `a/z.md` with no sortorder, modified 2024-01-01. -/
def nodeZ : QuartzPluginData :=
  ⟨["a", "z"], none, some "z", some ⟨1704067200000, 1704067200000, 1704067200000⟩, "z body"⟩

/-- C5: the default sibling comparator applies the documented precedence
chain — folders before files; ascending numeric sortorder within a kind; a
node with a sortorder before one without; dated before undated and more
recent (by modified date) first among dated nodes when neither has a
sortorder; case-insensitive title comparison as the final tie-break — and
on the scenario files `a/x.md` (sortorder 2), `a/y.md` (sortorder 1),
`a/z.md` (no sortorder, dated) it orders them `y, x, z`. -/
theorem default_comparator_precedence_chain :
    (∀ f1 f2 : QuartzPluginData,
      isFolderPath f1.slug = true → isFolderPath f2.slug = false →
        bySortOrderAndAlphabetical f1 f2 = -1) ∧
    (∀ f1 f2 : QuartzPluginData,
      isFolderPath f1.slug = false → isFolderPath f2.slug = true →
        bySortOrderAndAlphabetical f1 f2 = 1) ∧
    (∀ f1 f2 : QuartzPluginData, isFolderPath f1.slug = isFolderPath f2.slug →
      (∀ a b : Int, f1.sortorder = some a → f2.sortorder = some b →
        bySortOrderAndAlphabetical f1 f2 = a - b) ∧
      (f1.sortorder.isSome → f2.sortorder = none →
        bySortOrderAndAlphabetical f1 f2 = -1) ∧
      (f1.sortorder = none → f2.sortorder.isSome →
        bySortOrderAndAlphabetical f1 f2 = 1) ∧
      (f1.sortorder = none → f2.sortorder = none →
        (∀ d1 d2 : Dates, f1.dates = some d1 → f2.dates = some d2 →
          bySortOrderAndAlphabetical f1 f2 = d2.modified - d1.modified) ∧
        (f1.dates.isSome → f2.dates = none → bySortOrderAndAlphabetical f1 f2 = -1) ∧
        (f1.dates = none → f2.dates.isSome → bySortOrderAndAlphabetical f1 f2 = 1) ∧
        (f1.dates = none → f2.dates = none →
          bySortOrderAndAlphabetical f1 f2 =
            strCmpInt (lowerString (f1.title.getD "")) (lowerString (f2.title.getD ""))))) ∧
    jsSort bySortOrderAndAlphabetical [nodeX, nodeY, nodeZ] = [nodeY, nodeX, nodeZ] := by
  refine ⟨?_, ?_, ?_, by decide⟩
  · intro f1 f2 h1 h2
    simp [bySortOrderAndAlphabetical, h1, h2]
  · intro f1 f2 h1 h2
    simp [bySortOrderAndAlphabetical, h1, h2]
  · intro f1 f2 hk
    have hsame : ¬(isFolderPath f1.slug && !isFolderPath f2.slug) = true ∧
        ¬(!isFolderPath f1.slug && isFolderPath f2.slug) = true := by
      rcases h : isFolderPath f1.slug <;> rw [h] at hk <;> simp [h, ← hk]
    refine ⟨?_, ?_, ?_, ?_⟩
    · intro a b ha hb
      simp [bySortOrderAndAlphabetical, hsame.1, hsame.2, ha, hb]
    · intro ha hb
      rcases hs : f1.sortorder with _ | a
      · rw [hs] at ha; simp at ha
      · simp [bySortOrderAndAlphabetical, hsame.1, hsame.2, hs, hb]
    · intro ha hb
      rcases hs : f2.sortorder with _ | b
      · rw [hs] at hb; simp at hb
      · simp [bySortOrderAndAlphabetical, hsame.1, hsame.2, hs, ha]
    · intro ha hb
      refine ⟨?_, ?_, ?_, ?_⟩
      · intro d1 d2 h1 h2
        simp [bySortOrderAndAlphabetical, hsame.1, hsame.2, ha, hb, h1, h2]
      · intro h1 h2
        rcases hd : f1.dates with _ | d1
        · rw [hd] at h1; simp at h1
        · simp [bySortOrderAndAlphabetical, hsame.1, hsame.2, ha, hb, hd, h2]
      · intro h1 h2
        rcases hd : f2.dates with _ | d2
        · rw [hd] at h2; simp at h2
        · simp [bySortOrderAndAlphabetical, hsame.1, hsame.2, ha, hb, hd, h1]
      · intro h1 h2
        simp [bySortOrderAndAlphabetical, hsame.1, hsame.2, ha, hb, h1, h2]

/-- C5 witness: the folder/file clause applied at concrete nodes — a folder
slug `a/` sorts before the file `a/x.md`. -/
theorem default_comparator_precedence_chain_witness :
    bySortOrderAndAlphabetical ⟨["a", ""], none, some "a", none, ""⟩ nodeX = -1 :=
  default_comparator_precedence_chain.1 ⟨["a", ""], none, some "a", none, ""⟩ nodeX
    (by decide) (by decide)

/-! ### Navigation-tree explorer comparator (`createCustomSortFn` of
`custom-explorer.inline.ts`) -/

/-- The slice of a `FileTrieNode` the explorer comparator reads. -/
structure FileTrieNodeView where
  slug : List String
  displayName : String
  isFolder : Bool
deriving DecidableEq

/-- Embeds `createCustomSortFn` of `custom-explorer.inline.ts`: `cache`
models the `frontmatterCache` lookup of a node's `sortorder`.  Folder nodes
never read a sortorder (`getSortOrder` returns `null` for folders); within
a kind, sortorder ascending, a node carrying one first; otherwise
display-name comparison (its `localeCompare` collation is modelled
case-insensitively, which agrees with it on the inputs of the theorems
below); mixed kinds put folders first. -/
def createCustomSortFn (cache : List String → Option Int)
    (a b : FileTrieNodeView) : Int :=
  let aSortOrder := if a.isFolder then none else cache a.slug
  let bSortOrder := if b.isFolder then none else cache b.slug
  if (!a.isFolder && !b.isFolder) || (a.isFolder && b.isFolder) then
    match aSortOrder, bSortOrder with
    | some x, some y => x - y
    | some _, none => -1
    | none, some _ => 1
    | none, none =>
      strCmpInt (lowerString a.displayName) (lowerString b.displayName)
  else if !a.isFolder && b.isFolder then 1
  else -1

/-- File node `docs/b` as the emitter and the explorer each see it: titled
`b`, no sortorder, modified at 200. -/
def emitterNodeB : QuartzPluginData := ⟨["docs", "b"], none, some "b", some ⟨0, 200, 0⟩, ""⟩

/-- File node `docs/a`: titled `a`, no sortorder, modified at 100. -/
def emitterNodeA : QuartzPluginData := ⟨["docs", "a"], none, some "a", some ⟨0, 100, 0⟩, ""⟩

/-- Explorer view of `docs/b`. -/
def explorerNodeB : FileTrieNodeView := ⟨["docs", "b"], "b", false⟩

/-- Explorer view of `docs/a`. -/
def explorerNodeA : FileTrieNodeView := ⟨["docs", "a"], "a", false⟩

/-- C6 counterexample: on two sibling files without sortorder, both dated,
the index-page comparator orders the more recently modified `b` first
(date branch), while the explorer comparator — which has no date branch —
orders `a` before `b` alphabetically: the two implementations disagree on
the pair's relative order. -/
theorem emitter_explorer_comparators_disagree :
    bySortOrderAndAlphabetical emitterNodeB emitterNodeA < 0 ∧
    createCustomSortFn (fun _ => none) explorerNodeB explorerNodeA > 0 := by
  decide

/-- C6 amended: the two comparators agree on folder-versus-file precedence
and, for pairs of file nodes whose sortorder data coincides in both views,
on the numeric-sortorder clauses; they are not equivalent in general — the
explorer comparator lacks the date-based clauses (and ignores sortorder on
folders), so pairs decided by dates can be ordered oppositely. -/
theorem emitter_explorer_agree_on_kind_and_sortorder
    (cache : List String → Option Int) (f1 f2 : QuartzPluginData)
    (n1 n2 : FileTrieNodeView)
    (hk1 : isFolderPath f1.slug = n1.isFolder)
    (hk2 : isFolderPath f2.slug = n2.isFolder) :
    (n1.isFolder = true → n2.isFolder = false →
      bySortOrderAndAlphabetical f1 f2 = -1 ∧
      createCustomSortFn cache n1 n2 = -1) ∧
    (n1.isFolder = false → n2.isFolder = true →
      bySortOrderAndAlphabetical f1 f2 = 1 ∧
      createCustomSortFn cache n1 n2 = 1) ∧
    (n1.isFolder = false → n2.isFolder = false →
      ∀ s1 s2 : Int, f1.sortorder = some s1 → f2.sortorder = some s2 →
        cache n1.slug = some s1 → cache n2.slug = some s2 →
        bySortOrderAndAlphabetical f1 f2 = s1 - s2 ∧
        createCustomSortFn cache n1 n2 = s1 - s2) := by
  refine ⟨?_, ?_, ?_⟩
  · intro h1 h2
    rw [h1] at hk1; rw [h2] at hk2
    constructor
    · simp [bySortOrderAndAlphabetical, hk1, hk2]
    · simp [createCustomSortFn, h1, h2]
  · intro h1 h2
    rw [h1] at hk1; rw [h2] at hk2
    constructor
    · simp [bySortOrderAndAlphabetical, hk1, hk2]
    · simp [createCustomSortFn, h1, h2]
  · intro h1 h2 s1 s2 hs1 hs2 hc1 hc2
    rw [h1] at hk1; rw [h2] at hk2
    constructor
    · simp [bySortOrderAndAlphabetical, hk1, hk2, hs1, hs2]
    · simp [createCustomSortFn, h1, h2, hc1, hc2]

/-! ### FolderIndexGenerator (the `CustomFolderPage` emitter)

`ProcessedContent` pairs `[tree, file]` are modelled by the `file.data`
slice (`QuartzPluginData`), which is all the emitter reads from them; the
external `renderPage` call is modelled by packaging its inputs — the target
slug, the folder's content node and the full `allFiles` collection — into a
`Page` value. -/

/-- Fuel-driven embedding of the `path.dirname` loop of `_getFolders`: each
step drops the last segment, collecting every ancestor down to the root
`[]` (the loop's `"."`).  The fuel equals the starting length, so the
recursion always terminates exactly at the root. -/
def ancestorChainAux : Nat → List String → List (List String)
  | 0, f => [f]
  | _ + 1, [] => [[]]
  | n + 1, f => f :: ancestorChainAux n f.dropLast

/-- A folder path together with all its ancestors, ending at the root. -/
def ancestorChain (f : List String) : List (List String) :=
  ancestorChainAux f.length f

/-- Embeds `_getFolders` of the folder-page emitter: the dirname of the
slug and every further ancestor up to and including the root. -/
def _getFolders (slug : List String) : List (List String) :=
  ancestorChain slug.dropLast

/-- The ancestor folders of a slug minus the root and the reserved `tags`
namespace — the filter both `emit` and the incremental emit apply. -/
def filteredFolders (slug : List String) : List (List String) :=
  (_getFolders slug).filter (fun g => !(g == [] || g == ["tags"]))

/-- Modelled from the spec: quartz's `stripSlashes (simplifySlug slug)` —
drops a trailing `index` segment, turning a folder index slug into the
folder's own slug. -/
def simplifySlug (slug : List String) : List String :=
  if slug.getLast? == some "index" then slug.dropLast else slug

/-- A change event as the incremental emit consumes it: the associated
parsed file, when the event carries one. -/
structure ChangeEvent where
  file : Option QuartzPluginData
deriving DecidableEq

/-- Embeds `defaultProcessedContent` as `computeFolderInfo` invokes it for
a folder without an explicit index node: slug `<folder>/index`, frontmatter
title `Folder: <folder>` (the folder's full slug, `en-US` locale), and no
dates. -/
def defaultProcessedContent (folder : List String) : QuartzPluginData :=
  ⟨folder ++ ["index"], none,
    some ("Folder: " ++ String.intercalate "/" folder), none, ""⟩

/-- One step of `computeFolderInfo`'s update loop: a content node whose
simplified slug is one of the folders overwrites that folder's record
entry. -/
def computeStep (folders : List (List String))
    (acc : List (List String × QuartzPluginData)) (file : QuartzPluginData) :
    List (List String × QuartzPluginData) :=
  let slug := simplifySlug file.slug
  if folders.contains slug then
    acc.map (fun q => if q.1 == slug then (q.1, file) else q)
  else acc

/-- Embeds `computeFolderInfo`: a record keyed by the given folders, each
initially the synthesized default node, then overwritten by every content
node whose simplified slug is one of the folders (last write wins). -/
def computeFolderInfo (folders : List (List String))
    (content : List QuartzPluginData) : List (List String × QuartzPluginData) :=
  let folderInfo := folders.map (fun f => (f, defaultProcessedContent f))
  content.foldl (computeStep folders) folderInfo

/-- The content node `computeFolderInfo` ends up associating to one folder:
the last content node whose simplified slug equals the folder, or the
synthesized default. -/
def folderPage (content : List QuartzPluginData) (f : List String) :
    QuartzPluginData :=
  match (content.filter (fun c => simplifySlug c.slug == f)).getLast? with
  | some c => c
  | none => defaultProcessedContent f

/-- A rendered folder page, as the inputs `processFolderInfo` hands to the
external `renderPage`/`write` calls: the emitted slug `<folder>/index`, the
folder's content node, and the full collection supplied as `allFiles`. -/
structure Page where
  slug : List String
  fileData : QuartzPluginData
  allFiles : List QuartzPluginData
deriving DecidableEq

/-- Embeds `processFolderInfo`: renders one page per folder entry. -/
def processFolderInfo (folderInfo : List (List String × QuartzPluginData))
    (allFiles : List QuartzPluginData) : List Page :=
  folderInfo.map (fun fi => ⟨fi.1 ++ ["index"], fi.2, allFiles⟩)

/-- The full folder set of `emit`: ancestor folders of every content node,
deduplicated in first-insertion order (a JavaScript `Set`). -/
def emitFoldersOf (content : List QuartzPluginData) : List (List String) :=
  setOfList (content.flatMap (fun d => filteredFolders d.slug))

/-- Embeds the full pass `emit` of `CustomFolderPage`. -/
def emit (content : List QuartzPluginData) : List Page :=
  processFolderInfo (computeFolderInfo (emitFoldersOf content) content) content

/-- The affected folder set of the incremental pass: ancestor folders of
every change event that carries a file, deduplicated in insertion order. -/
def affectedFoldersOf (changeEvents : List ChangeEvent) : List (List String) :=
  setOfList
    ((changeEvents.filterMap (fun ce => ce.file)).flatMap
      (fun f => filteredFolders f.slug))

/-- Embeds the incremental pass of `CustomFolderPage` (its `partialEmit`
method): rebuilds pages only for the affected folders, against the current
full content collection, and emits nothing when no folder is affected. -/
def emitChanged (content : List QuartzPluginData)
    (changeEvents : List ChangeEvent) : List Page :=
  let affectedFolders := affectedFoldersOf changeEvents
  if 0 < affectedFolders.length then
    processFolderInfo (computeFolderInfo affectedFolders content) content
  else []

/-- The override function `computeFolderInfo`'s fold computes pointwise:
the last matching content node, else the fallback `g`. -/
def overrideLast (g : List String → QuartzPluginData)
    (cs : List QuartzPluginData) (f : List String) : QuartzPluginData :=
  match (cs.filter (fun c => simplifySlug c.slug == f)).getLast? with
  | some c => c
  | none => g f

/-- Processing one more content node first is the same as folding it into
the fallback. -/
theorem overrideLast_cons (g : List String → QuartzPluginData)
    (c : QuartzPluginData) (cs : List QuartzPluginData) (f : List String) :
    overrideLast g (c :: cs) f =
      overrideLast (fun f' => if f' == simplifySlug c.slug then c else g f') cs f := by
  simp only [overrideLast, List.filter_cons]
  by_cases h : simplifySlug c.slug = f
  · rw [if_pos (by simpa using h)]
    rcases hfl : cs.filter (fun d => simplifySlug d.slug == f) with _ | ⟨y, ys⟩ <;> rw [hfl]
    · have hf : (f == simplifySlug c.slug) = true := by simpa using h.symm
      simp only [List.getLast?_singleton, List.getLast?_nil, hf, if_true]
    · rw [List.getLast?_cons_cons]
      rcases hx : (y :: ys).getLast? with _ | x
      · rw [List.getLast?_eq_none_iff] at hx
        exact absurd hx (List.cons_ne_nil y ys)
      · rfl
  · rw [if_neg (by simpa using h)]
    have hne : ¬((f == simplifySlug c.slug) = true) := by
      simp only [beq_iff_eq]
      exact fun hh => h hh.symm
    rcases hx : (cs.filter (fun d => simplifySlug d.slug == f)).getLast? with _ | x
    · simp only [hx]
      rw [if_neg hne]
    · simp only [hx]

/-- Folding `computeFolderInfo`'s update loop over a record keyed by the
folders computes, pointwise, the last matching content node over the
fallback. -/
theorem computeFolderInfo_foldl (folders : List (List String)) :
    ∀ (cs : List QuartzPluginData) (g : List String → QuartzPluginData),
      cs.foldl (computeStep folders) (folders.map (fun f => (f, g f))) =
        folders.map (fun f => (f, overrideLast g cs f)) := by
  intro cs
  induction cs with
  | nil =>
    intro g
    rw [List.foldl_nil]
    apply List.map_congr_left
    intro f _
    simp [overrideLast]
  | cons c cs ih =>
    intro g
    rw [List.foldl_cons]
    by_cases hc : folders.contains (simplifySlug c.slug) = true
    · have hmap : computeStep folders (folders.map (fun f => (f, g f))) c =
          folders.map (fun f => (f, if f == simplifySlug c.slug then c else g f)) := by
        simp only [computeStep, hc, if_true, List.map_map]
        apply List.map_congr_left
        intro f _
        by_cases hf : (f == simplifySlug c.slug) = true
        · have hfe : f = simplifySlug c.slug := by simpa using hf
          simp [hf, hfe]
        · have hfe : ¬(f = simplifySlug c.slug) := by simpa using hf
          simp [hf, hfe]
      rw [hmap, ih (fun f => if f == simplifySlug c.slug then c else g f)]
      apply List.map_congr_left
      intro f _
      rw [overrideLast_cons]
    · have hmap : computeStep folders (folders.map (fun f => (f, g f))) c =
          folders.map (fun f => (f, g f)) := by
        simp only [computeStep]
        rw [if_neg hc]
      rw [hmap, ih g]
      apply List.map_congr_left
      intro f hf
      have hfs : ¬((simplifySlug c.slug == f) = true) := by
        simp only [beq_iff_eq]
        intro hh
        rw [hh] at hc
        exact hc (List.elem_iff.mpr hf)
      congr 1
      simp only [overrideLast, List.filter_cons, if_neg hfs]

/-- Per-folder characterization of `computeFolderInfo`: each requested
folder maps to the last content node carrying its slug, or to the
synthesized default. -/
theorem computeFolderInfo_eq_map (folders : List (List String))
    (content : List QuartzPluginData) :
    computeFolderInfo folders content =
      folders.map (fun f => (f, folderPage content f)) := by
  unfold computeFolderInfo
  rw [computeFolderInfo_foldl]
  apply List.map_congr_left
  intro f _
  rfl

/-- The full pass emits one page per computed folder, built from
`folderPage` and the full collection. -/
theorem emit_eq_map (content : List QuartzPluginData) :
    emit content =
      (emitFoldersOf content).map
        (fun f => ⟨f ++ ["index"], folderPage content f, content⟩) := by
  unfold emit processFolderInfo
  rw [computeFolderInfo_eq_map, List.map_map]
  rfl

/-- The incremental pass emits one page per affected folder, built from the
same `folderPage` over the same full collection (the empty-affected guard
coincides with the empty map). -/
theorem emitChanged_eq_map (content : List QuartzPluginData)
    (changeEvents : List ChangeEvent) :
    emitChanged content changeEvents =
      (affectedFoldersOf changeEvents).map
        (fun f => ⟨f ++ ["index"], folderPage content f, content⟩) := by
  unfold emitChanged
  by_cases h : 0 < (affectedFoldersOf changeEvents).length
  · rw [if_pos h]
    unfold processFolderInfo
    rw [computeFolderInfo_eq_map, List.map_map]
    rfl
  · rw [if_neg h]
    have hnil : affectedFoldersOf changeEvents = [] :=
      List.length_eq_zero.mp (Nat.eq_zero_of_not_pos h)
    rw [hnil]
    rfl

/-- C3: for every content collection whose change events reference only
files of the collection, the incremental pass emits pages for exactly the
affected ancestor folders (root and tag namespace excluded), each page
identical to the one the full pass produces for that folder, and emits
nothing when no folder is affected. -/
theorem incremental_emit_matches_full_emit
    (content : List QuartzPluginData) (changeEvents : List ChangeEvent)
    (hin : ∀ ce ∈ changeEvents, ∀ f, ce.file = some f → f ∈ content) :
    (emitChanged content changeEvents).map (fun pg => pg.slug) =
      (affectedFoldersOf changeEvents).map (fun f => f ++ ["index"]) ∧
    (∀ pg ∈ emitChanged content changeEvents, pg ∈ emit content) ∧
    (affectedFoldersOf changeEvents = [] → emitChanged content changeEvents = []) := by
  refine ⟨?_, ?_, ?_⟩
  · rw [emitChanged_eq_map, List.map_map]
    rfl
  · intro pg hpg
    rw [emitChanged_eq_map] at hpg
    rcases List.mem_map.mp hpg with ⟨f, hfA, rfl⟩
    have hfF : f ∈ emitFoldersOf content := by
      rw [affectedFoldersOf, mem_setOfList] at hfA
      rcases List.mem_flatMap.mp hfA with ⟨d, hd, hfd⟩
      rcases List.mem_filterMap.mp hd with ⟨ce, hce, hcef⟩
      have hdc : d ∈ content := hin ce hce d hcef
      rw [emitFoldersOf, mem_setOfList]
      exact List.mem_flatMap.mpr ⟨d, hdc, hfd⟩
    rw [emit_eq_map]
    exact List.mem_map.mpr ⟨f, hfF, rfl⟩
  · intro h
    rw [emitChanged_eq_map, h]
    rfl

/-- Scenario content node `docs/guide/intro.md`. -/
def introFile : QuartzPluginData :=
  ⟨["docs", "guide", "intro"], none, some "Intro", none, "intro body"⟩

/-- C3 witness: a single change event for `docs/guide/intro.md` makes the
incremental pass emit exactly `docs/guide/index` and `docs/index`, both
present in the full pass's output, over the collection containing that
file. -/
theorem incremental_emit_matches_full_emit_witness :
    (emitChanged [introFile] [⟨some introFile⟩]).map (fun pg => pg.slug) =
      (affectedFoldersOf [⟨some introFile⟩]).map (fun f => f ++ ["index"]) ∧
    (∀ pg ∈ emitChanged [introFile] [⟨some introFile⟩], pg ∈ emit [introFile]) ∧
    (affectedFoldersOf [⟨some introFile⟩] = [] →
      emitChanged [introFile] [⟨some introFile⟩] = []) :=
  incremental_emit_matches_full_emit [introFile] [⟨some introFile⟩]
    (by
      intro ce hce f hf
      rcases List.mem_singleton.mp hce with rfl
      simp only [Option.some.injEq] at hf
      rw [← hf]
      exact List.mem_singleton.mpr rfl)

/-! ### Synthetic folder rows and their dates (`FolderContent` /
`getMostRecentDates`) -/

/-- A node of the site trie: path, display name, folder flag, the attached
content node when one exists, and the ordered children. -/
inductive TrieNode where
  | node (slug : List String) (displayName : String) (isFolder : Bool)
      (data : Option QuartzPluginData) (children : List TrieNode)

/-- The content node attached to a trie node, if any. -/
def TrieNode.data : TrieNode → Option QuartzPluginData
  | .node _ _ _ d _ => d

/-- The children of a trie node. -/
def TrieNode.children : TrieNode → List TrieNode
  | .node _ _ _ _ cs => cs

/-- Whether a trie node is a folder. -/
def TrieNode.isFolder : TrieNode → Bool
  | .node _ _ f _ _ => f

/-- The element-wise update of `getMostRecentDates`'s loop body: keep each
of created/modified/published when it is not beaten by the candidate. -/
def mergeDates (m d : Dates) : Dates :=
  ⟨if d.created > m.created then d.created else m.created,
   if d.modified > m.modified then d.modified else m.modified,
   if d.published > m.published then d.published else m.published⟩

/-- One iteration of `getMostRecentDates`'s `for (const child of
node.children)` loop: only a child that itself carries `data` with `dates`
contributes; the first such child's dates are copied, later ones merged
element-wise. -/
def datesStep (md : Option Dates) (child : TrieNode) : Option Dates :=
  match child.data with
  | some d0 =>
    match d0.dates with
    | some ds =>
      match md with
      | none => some ds
      | some m => some (mergeDates m ds)
    | none => md
  | none => md

/-- Embeds `getMostRecentDates` of `FolderContent`: folds the loop body
over the direct children and falls back to the current time (`now`,
`new Date()`), for all three components, when no direct child carried
dates. -/
def getMostRecentDates (now : Int) (node : TrieNode) : Dates :=
  match node.children.foldl datesStep none with
  | some d => d
  | none => ⟨now, now, now⟩

/-- The explicit dates of the direct children of a node, in child order. -/
def directChildDates (node : TrieNode) : List Dates :=
  node.children.filterMap (fun c => c.data.bind (fun d => d.dates))

/-- Modelled from the spec (the claim's recursive aggregation, which the
code does not implement): a child contributes its explicit dates, or — when
it is a folder without explicit dates — its own recursively synthesized
dates; the element-wise most-recent of the contributions, defaulting to the
current time.  `fuel` bounds the recursion depth; any value at least the
height of the tree computes the spec's recursion exactly. -/
def specSynthDates : Nat → Int → TrieNode → Dates
  | 0, now, _ => ⟨now, now, now⟩
  | fuel + 1, now, node =>
    match node.children.filterMap
        (fun c =>
          match c.data.bind (fun d => d.dates) with
          | some ds => some ds
          | none =>
            if c.isFolder then some (specSynthDates fuel now c) else none) with
    | [] => ⟨now, now, now⟩
    | d :: ds => ds.foldl mergeDates d

/-- Element-wise merge is the element-wise maximum. -/
theorem mergeDates_eq_max (m d : Dates) :
    mergeDates m d =
      ⟨max m.created d.created, max m.modified d.modified,
        max m.published d.published⟩ := by
  have key : ∀ a b : Int, (if b > a then b else a) = max a b := by
    intro a b
    split_ifs with h
    · exact (max_eq_right h.le).symm
    · exact (max_eq_left (not_lt.mp h)).symm
  cases m
  cases d
  simp only [mergeDates, key]

/-- A child without explicit dates contributes nothing to the loop. -/
theorem datesStep_none (acc : Option Dates) (c : TrieNode)
    (h : c.data.bind (fun d => d.dates) = none) :
    datesStep acc c = acc := by
  unfold datesStep
  rcases hd : c.data with _ | d0
  · rfl
  · rw [hd, Option.some_bind] at h
    rcases hds : d0.dates with _ | ds
    · simp only [hds]
    · rw [hds] at h
      exact absurd h (Option.some_ne_none ds)

/-- A child with explicit dates is copied into an empty accumulator and
merged into a non-empty one. -/
theorem datesStep_some (acc : Option Dates) (c : TrieNode) (ds : Dates)
    (h : c.data.bind (fun d => d.dates) = some ds) :
    datesStep acc c =
      (match acc with
       | none => some ds
       | some m => some (mergeDates m ds)) := by
  unfold datesStep
  rcases hd : c.data with _ | d0
  · rw [hd] at h
    simp at h
  · rw [hd, Option.some_bind] at h
    rcases hds : d0.dates with _ | ds'
    · rw [hds] at h
      simp at h
    · rw [hds] at h
      rcases Option.some.inj h with rfl
      simp only [hds]

/-- The loop over the children aggregates exactly the element-wise merge of
the direct children's explicit dates. -/
theorem foldl_datesStep (cs : List TrieNode) :
    ∀ acc : Option Dates,
      cs.foldl datesStep acc =
        (match acc, cs.filterMap (fun c => c.data.bind (fun d => d.dates)) with
         | none, [] => none
         | none, d :: ds => some (ds.foldl mergeDates d)
         | some m, ds => some (ds.foldl mergeDates m)) := by
  induction cs with
  | nil => intro acc; rcases acc <;> simp
  | cons c cs ih =>
    intro acc
    rw [List.foldl_cons]
    rcases h : c.data.bind (fun d => d.dates) with _ | ds
    · rw [datesStep_none acc c h, ih acc,
        @List.filterMap_cons_none TrieNode Dates
          (fun c => c.data.bind (fun d => d.dates)) c cs h]
    · rw [datesStep_some acc c ds h,
        @List.filterMap_cons_some TrieNode Dates
          (fun c => c.data.bind (fun d => d.dates)) c cs ds h]
      rcases acc with _ | m
      · rw [ih (some ds)]
      · rw [ih (some (mergeDates m ds))]
        simp [List.foldl_cons]

/-- C7 counterexample: a folder whose only child is a dataless child folder
holding a dated grandchild.  The claim's recursive aggregation (modelled by
`specSynthDates`) yields the grandchild's dates, but `getMostRecentDates`
iterates the direct children only and skips the dataless child folder
entirely, falling back to the current time (0 here). -/
theorem folder_dates_skip_dataless_child_folders :
    getMostRecentDates 0
        (.node ["docs"] "docs" true none
          [.node ["docs", "guide"] "guide" true none
            [.node ["docs", "guide", "a"] "a" false
              (some ⟨["docs", "guide", "a"], none, some "a",
                some ⟨100, 200, 300⟩, ""⟩) []]]) = ⟨0, 0, 0⟩ ∧
    specSynthDates 2 0
        (.node ["docs"] "docs" true none
          [.node ["docs", "guide"] "guide" true none
            [.node ["docs", "guide", "a"] "a" false
              (some ⟨["docs", "guide", "a"], none, some "a",
                some ⟨100, 200, 300⟩, ""⟩) []]]) = ⟨100, 200, 300⟩ ∧
    (⟨0, 0, 0⟩ : Dates) ≠ ⟨100, 200, 300⟩ := by
  decide

/-- C7 amended: a folder lacking an explicit index node gets a synthesized
page node titled `Folder: <path>` with no dates; separately, the folder
listing's synthetic subfolder rows aggregate the element-wise most-recent
dates of the direct children that carry explicit dates only — dataless
child folders are skipped, not recursed into — defaulting to the current
time when no direct child carries dates. -/
theorem synthetic_folder_metadata (now : Int) (node : TrieNode)
    (folder : List String) (content : List QuartzPluginData)
    (hno : content.filter (fun c => simplifySlug c.slug == folder) = []) :
    getMostRecentDates now node =
      (match directChildDates node with
       | [] => ⟨now, now, now⟩
       | d :: ds => ds.foldl mergeDates d) ∧
    folderPage content folder = defaultProcessedContent folder ∧
    (defaultProcessedContent folder).title =
      some ("Folder: " ++ String.intercalate "/" folder) ∧
    (defaultProcessedContent folder).dates = none := by
  refine ⟨?_, ?_, rfl, rfl⟩
  · unfold getMostRecentDates directChildDates
    rw [foldl_datesStep]
    rcases hx : node.children.filterMap (fun c => c.data.bind (fun d => d.dates))
      with _ | ⟨d, ds⟩ <;> rw [hx]
  · unfold folderPage
    rw [hno]
    rfl

/-- C7 amended, witness: one dated and one undated direct child — the
synthetic row's dates are the dated child's, and folder `docs` without an
explicit index node gets the dateless `Folder: docs` page node. -/
theorem synthetic_folder_metadata_witness :
    getMostRecentDates 7
        (.node ["docs"] "docs" true none
          [.node ["docs", "a"] "a" false
            (some ⟨["docs", "a"], none, some "a", some ⟨1, 2, 3⟩, ""⟩) [],
           .node ["docs", "b"] "b" true none []]) =
      (match directChildDates
          (.node ["docs"] "docs" true none
            [.node ["docs", "a"] "a" false
              (some ⟨["docs", "a"], none, some "a", some ⟨1, 2, 3⟩, ""⟩) [],
             .node ["docs", "b"] "b" true none []]) with
       | [] => ⟨7, 7, 7⟩
       | d :: ds => ds.foldl mergeDates d) ∧
    folderPage [] ["docs"] = defaultProcessedContent ["docs"] ∧
    (defaultProcessedContent ["docs"]).title =
      some ("Folder: " ++ String.intercalate "/" ["docs"]) ∧
    (defaultProcessedContent ["docs"]).dates = none :=
  synthetic_folder_metadata 7
    (.node ["docs"] "docs" true none
      [.node ["docs", "a"] "a" false
        (some ⟨["docs", "a"], none, some "a", some ⟨1, 2, 3⟩, ""⟩) [],
       .node ["docs", "b"] "b" true none []])
    ["docs"] [] rfl

/-! ### FrontmatterIndex emitter (`frontmatter-index` plugin of
`quartz.config.ts`) -/

/-- One table-of-contents entry of a processed file. -/
structure TocEntry where
  depth : Nat
  anchor : String
  text : String
deriving DecidableEq

/-- The slice of a processed content file the emitter reads: slug,
frontmatter key/value pairs (`{}` when the transformer left none), and the
table of contents (`[]` when absent). -/
structure ContentFile where
  slug : List String
  frontmatter : List (String × String)
  toc : List TocEntry
deriving DecidableEq

/-- One value of the emitted index: the file's frontmatter fields together
with its table of contents (`{ ...frontmatter, toc }`). -/
structure IndexEntry where
  fields : List (String × String)
  toc : List TocEntry
deriving DecidableEq

/-- The one file the emitter writes (`write {ctx, content, slug, ext}`);
JSON serialization of the index object is abstracted into the association
list itself. -/
structure EmittedIndexFile where
  slug : List String
  ext : String
  index : List (List String × IndexEntry)
deriving DecidableEq

/-- JavaScript object property assignment on the index record: overwrite in
place when the key exists, append otherwise. -/
def recordSet (acc : List (List String × IndexEntry)) (k : List String)
    (v : IndexEntry) : List (List String × IndexEntry) :=
  if acc.any (fun q => q.1 == k) then
    acc.map (fun q => if q.1 == k then (k, v) else q)
  else acc ++ [(k, v)]

/-- The emitter's inclusion test: at least one frontmatter key, or a
non-empty table of contents. -/
def indexQualifies (f : ContentFile) : Bool :=
  !f.frontmatter.isEmpty || !f.toc.isEmpty

/-- Embeds the index-building loop of the `FrontmatterIndex` emitter:
every qualifying file's slug is assigned its frontmatter plus TOC. -/
def buildFrontmatterIndex (content : List ContentFile) :
    List (List String × IndexEntry) :=
  content.foldl
    (fun acc file =>
      if indexQualifies file then
        recordSet acc file.slug ⟨file.frontmatter, file.toc⟩
      else acc) []

/-- Embeds the emitter's single yielded write: one file at slug
`static/frontmatterIndex` with extension `.json` holding the index. -/
def frontmatterIndexEmit (content : List ContentFile) : List EmittedIndexFile :=
  [⟨["static", "frontmatterIndex"], ".json", buildFrontmatterIndex content⟩]

/-- Assigning a fresh key appends it. -/
theorem recordSet_of_fresh (acc : List (List String × IndexEntry))
    (k : List String) (v : IndexEntry) (h : ∀ q ∈ acc, q.1 ≠ k) :
    recordSet acc k v = acc ++ [(k, v)] := by
  unfold recordSet
  rw [if_neg]
  simp only [List.any_eq_true, beq_iff_eq, not_exists, not_and]
  exact fun q hq => h q hq

/-- With pairwise-distinct slugs the index loop appends one entry per
qualifying file, in order. -/
theorem buildFrontmatterIndex_aux :
    ∀ (cs : List ContentFile) (acc : List (List String × IndexEntry)),
      (∀ f ∈ cs, ∀ q ∈ acc, q.1 ≠ f.slug) →
      (cs.map (fun f => f.slug)).Nodup →
      cs.foldl
          (fun acc file =>
            if indexQualifies file then
              recordSet acc file.slug ⟨file.frontmatter, file.toc⟩
            else acc) acc =
        acc ++ (cs.filter indexQualifies).map
          (fun f => (f.slug, ⟨f.frontmatter, f.toc⟩)) := by
  intro cs
  induction cs with
  | nil => intro acc _ _; simp
  | cons f cs ih =>
    intro acc hacc hnodup
    rw [List.foldl_cons]
    have hnodup' : (cs.map (fun g => g.slug)).Nodup := by
      rw [List.map_cons, List.nodup_cons] at hnodup
      exact hnodup.2
    have hfs : f.slug ∉ cs.map (fun g => g.slug) := by
      rw [List.map_cons, List.nodup_cons] at hnodup
      exact hnodup.1
    by_cases hq : indexQualifies f = true
    · have hpre : ∀ g ∈ cs, ∀ q ∈ acc ++ [(f.slug,
          (⟨f.frontmatter, f.toc⟩ : IndexEntry))], q.1 ≠ g.slug := by
        intro g hg q hqmem
        rcases List.mem_append.mp hqmem with hqa | hqs
        · exact hacc g (List.mem_cons_of_mem f hg) q hqa
        · rcases List.mem_singleton.mp hqs with rfl
          intro hk
          have hk' : f.slug = g.slug := hk
          apply hfs
          rw [hk']
          exact List.mem_map.mpr ⟨g, hg, rfl⟩
      rw [if_pos hq, recordSet_of_fresh acc f.slug _ (hacc f (List.mem_cons_self f cs)),
        ih (acc ++ [(f.slug, (⟨f.frontmatter, f.toc⟩ : IndexEntry))]) hpre hnodup',
        List.filter_cons_of_pos hq, List.map_cons, List.append_assoc]
      rfl
    · rw [if_neg hq, ih acc (fun g hg => hacc g (List.mem_cons_of_mem f hg)) hnodup']
      rw [List.filter_cons_of_neg hq]

/-- Looking a key up in the mapped filtered list misses slugs outside it. -/
theorem lookup_mapped_filter_none (cs : List ContentFile) (k : List String)
    (hk : k ∉ cs.map (fun f => f.slug)) :
    ((cs.filter indexQualifies).map
        (fun f => (f.slug, (⟨f.frontmatter, f.toc⟩ : IndexEntry)))).lookup k = none := by
  induction cs with
  | nil => rfl
  | cons f cs ih =>
    have hk' : k ∉ cs.map (fun g => g.slug) := by
      intro hmem
      exact hk (List.mem_cons_of_mem _ hmem)
    have hkf : (k == f.slug) = false := by
      rw [beq_eq_false_iff_ne]
      intro hh
      exact hk (hh ▸ List.mem_cons_self _ _)
    by_cases hq : indexQualifies f = true
    · rw [List.filter_cons_of_pos hq, List.map_cons, List.lookup_cons, hkf]
      exact ih hk'
    · rw [List.filter_cons_of_neg hq]
      exact ih hk'

/-- Per-file lookup in the built index (distinct slugs): the entry is the
file's frontmatter plus TOC when the file qualifies, absent otherwise. -/
theorem lookup_buildFrontmatterIndex (cs : List ContentFile)
    (hnodup : (cs.map (fun f => f.slug)).Nodup) :
    ∀ f ∈ cs,
      (buildFrontmatterIndex cs).lookup f.slug =
        (if indexQualifies f then some ⟨f.frontmatter, f.toc⟩ else none) := by
  have hbuild := buildFrontmatterIndex_aux cs [] (by intro f _ q hq; simp at hq) hnodup
  unfold buildFrontmatterIndex
  rw [hbuild, List.nil_append]
  clear hbuild
  induction cs with
  | nil => intro f hf; simp at hf
  | cons g cs ih =>
    intro f hf
    rw [List.map_cons, List.nodup_cons] at hnodup
    rcases List.mem_cons.mp hf with rfl | hfc
    · by_cases hq : indexQualifies f = true
      · rw [List.filter_cons_of_pos hq, List.map_cons, List.lookup_cons,
          beq_self_eq_true, if_pos hq]
      · rw [List.filter_cons_of_neg hq, if_neg hq]
        exact lookup_mapped_filter_none cs f.slug hnodup.1
    · have hne : (f.slug == g.slug) = false := by
        rw [beq_eq_false_iff_ne]
        intro hh
        exact hnodup.1 (hh ▸ List.mem_map.mpr ⟨f, hfc, rfl⟩)
      by_cases hq : indexQualifies g = true
      · rw [List.filter_cons_of_pos hq, List.map_cons, List.lookup_cons, hne]
        exact ih hnodup.2 f hfc
      · rw [List.filter_cons_of_neg hq]
        exact ih hnodup.2 f hfc

/-- C10: the `FrontmatterIndex` emitter yields exactly one JSON file, at
slug `static/frontmatterIndex` with extension `.json`, and — for a
collection with distinct slugs — a file's slug is a key of the emitted
index exactly when the file has at least one frontmatter key or a
non-empty table of contents, in which case its entry is the frontmatter
fields together with the TOC. -/
theorem frontmatter_index_single_file_and_contents
    (content : List ContentFile)
    (hnodup : (content.map (fun f => f.slug)).Nodup) :
    (frontmatterIndexEmit content).map (fun e => (e.slug, e.ext)) =
      [(["static", "frontmatterIndex"], ".json")] ∧
    ∀ f ∈ content,
      (((buildFrontmatterIndex content).lookup f.slug).isSome ↔
        (f.frontmatter ≠ [] ∨ f.toc ≠ [])) ∧
      ((f.frontmatter ≠ [] ∨ f.toc ≠ []) →
        (buildFrontmatterIndex content).lookup f.slug =
          some ⟨f.frontmatter, f.toc⟩) := by
  refine ⟨rfl, ?_⟩
  intro f hf
  have hq : indexQualifies f = true ↔ (f.frontmatter ≠ [] ∨ f.toc ≠ []) := by
    simp [indexQualifies, List.isEmpty_iff]
  rw [lookup_buildFrontmatterIndex content hnodup f hf]
  constructor
  · by_cases h : indexQualifies f = true
    · simp [h, hq.mp h]
    · constructor
      · intro hs
        rw [if_neg h] at hs
        simp at hs
      · intro hor
        exact absurd (hq.mpr hor) h
  · intro hor
    rw [if_pos (hq.mpr hor)]

/-- C10 witness: over a two-file collection, the file with a frontmatter
key is indexed with its fields and TOC; the file with neither frontmatter
nor TOC is absent. -/
theorem frontmatter_index_single_file_and_contents_witness :
    ((frontmatterIndexEmit
          [⟨["a"], [("title", "A")], []⟩, ⟨["b"], [], []⟩]).map
        (fun e => (e.slug, e.ext)) =
      [(["static", "frontmatterIndex"], ".json")]) ∧
    ((buildFrontmatterIndex
          [⟨["a"], [("title", "A")], []⟩, ⟨["b"], [], []⟩]).lookup ["a"] =
      some ⟨[("title", "A")], []⟩) ∧
    (((buildFrontmatterIndex
          [⟨["a"], [("title", "A")], []⟩, ⟨["b"], [], []⟩]).lookup
        ["b"]).isSome = false) := by
  have h := frontmatter_index_single_file_and_contents
    [⟨["a"], [("title", "A")], []⟩, ⟨["b"], [], []⟩] (by decide)
  refine ⟨h.1, ?_, ?_⟩
  · exact (h.2 ⟨["a"], [("title", "A")], []⟩ (by decide)).2
      (Or.inl (by decide))
  · have hb := (h.2 ⟨["b"], [], []⟩ (by simp)).1
    rcases hs : ((buildFrontmatterIndex
        [⟨["a"], [("title", "A")], []⟩, ⟨["b"], [], []⟩]).lookup ["b"]).isSome
    · rfl
    · rcases hb.mp hs with hor | hor <;> simp at hor

/-- C6 amended, witness: at concrete file nodes with sortorders 1 and 2 the
two comparators both return `1 - 2 = -1`. -/
theorem emitter_explorer_agree_on_kind_and_sortorder_witness :
    bySortOrderAndAlphabetical nodeY nodeX = 1 - 2 ∧
    createCustomSortFn
      (fun s => if s == ["a", "y"] then some 1 else some 2)
      ⟨["a", "y"], "y", false⟩ ⟨["a", "x"], "x", false⟩ = 1 - 2 :=
  (emitter_explorer_agree_on_kind_and_sortorder
      (fun s => if s == ["a", "y"] then some 1 else some 2)
      nodeY nodeX ⟨["a", "y"], "y", false⟩ ⟨["a", "x"], "x", false⟩
      (by decide) (by decide)).2.2
    (by decide) (by decide) 1 2 (by decide) (by decide) (by decide) (by decide)

end Cesium
